import Mathlib

/-!
Verification of the document-merge core of `src/app.py` (`merge_docx_files`).

The embedding models:
  * the text of an XML part as `List Char`, with Python's `str.find`,
    `str.rfind`, slicing, `strip`/`rstrip` and `endswith` translated
    positionally;
  * a zip byte buffer as either `corrupt` (raises `BadZipFile`) or an
    `archive` of (path, content) entries; `extractall` materialises the
    entry list into a file tree where a later duplicate path overwrites an
    earlier one (`dedupKeepLast`);
  * the error taxonomy of the spec: `InsufficientInputs` for the
    `len(file_paths) < 2` ValueError, `CorruptArchive` for `BadZipFile`,
    `MissingPrimaryPart` for a missing `word/document.xml`,
    `InvalidDocumentStructure` for the missing `</w:body>` ValueError;
    a raised exception aborts the call before the output zip is written,
    which the `Except` result models.
-/

namespace DocxMerge

/-- Text of an XML part, modelled as the list of its characters. -/
abbrev Str := List Char

def strOf (s : String) : Str := s.data

/-- Characters removed by Python `str.strip()` / `str.rstrip()` on the
ASCII range (space, tab, newline, carriage return, vertical tab, form feed). -/
def pyWs (c : Char) : Bool :=
  c = ' ' || c = '\t' || c = '\n' || c = '\r' || c = '\x0b' || c = '\x0c'

/-- Python `s.strip()`. -/
def pyStrip (s : Str) : Str :=
  ((s.dropWhile pyWs).reverse.dropWhile pyWs).reverse

/-- Python `s.rstrip()`. -/
def pyRstrip (s : Str) : Str :=
  (s.reverse.dropWhile pyWs).reverse

/-- First position `≥ i` at which `pat` occurs in the remaining text;
models Python `str.find` (which returns the smallest match position). -/
def findAux (pat : Str) : Str → Nat → Option Nat
  | [], i => if pat.isPrefixOf ([] : Str) then some i else none
  | c :: r, i => if pat.isPrefixOf (c :: r) then some i else findAux pat r (i + 1)

/-- Python `s.find(pat)`, with `none` for `-1`. -/
def findSub (s pat : Str) : Option Nat := findAux pat s 0

/-- Scan keeping the last position at which `pat` occurs. -/
def rfindAux (pat : Str) : Str → Nat → Option Nat → Option Nat
  | [], i, acc => if pat.isPrefixOf ([] : Str) then some i else acc
  | c :: r, i, acc => rfindAux pat r (i + 1) (if pat.isPrefixOf (c :: r) then some i else acc)

/-- Python `s.rfind(pat)`, with `none` for `-1`. -/
def rfindSub (s pat : Str) : Option Nat := rfindAux pat s 0 none

/-- Path of the primary XML part: `word/document.xml`. -/
def docPath : String := "word/document.xml"

/-- The literal opening body marker `<w:body>` (8 characters). -/
def bodyOpenTag : Str := strOf "<w:body>"

/-- The literal closing body marker `</w:body>`. -/
def bodyCloseTag : Str := strOf "</w:body>"

/-- Opening marker of a section-properties block. -/
def sectPrOpen : Str := strOf "<w:sectPr"

/-- Closing marker of a section-properties block. -/
def sectPrClose : Str := strOf "</w:sectPr>"

/-- The page-break marker inserted before each additional body fragment. -/
def pageBreak : Str := strOf "<w:p><w:r><w:br w:type=\"page\"/></w:r></w:p>"

/-- A decoded container: the (path, content) entries of a zip archive,
as materialised on disk by `extractall`. -/
abbrev Container := List (String × Str)

/-- A raw input byte buffer: either not a valid zip structure, or an
archive with its ordered entry list. -/
inductive ZipFileData : Type
  | corrupt : ZipFileData
  | archive : Container → ZipFileData
deriving DecidableEq

/-- The error kinds of the spec, mapped from the exceptions of `app.py`. -/
inductive MergeError : Type
  | insufficientInputs
  | corruptArchive
  | missingPrimaryPart
  | invalidDocumentStructure
deriving DecidableEq

/-- Reading the file at path `p` from an extracted tree. -/
def lookupKey (p : String) : Container → Option Str
  | [] => none
  | (q, v) :: rest => if q = p then some v else lookupKey p rest

/-- `extractall` writes entries in order, so a later entry at the same
path overwrites an earlier one: the resulting tree keeps the last
occurrence of each path. -/
def dedupKeepLast : Container → Container
  | [] => []
  | e :: rest =>
    if e.1 ∈ rest.map Prod.fst then dedupKeepLast rest else e :: dedupKeepLast rest

/-- `zipfile.ZipFile(path).extractall(dir)`: fails with `BadZipFile` on a
corrupt buffer, otherwise yields the extracted tree. -/
def decodeZip : ZipFileData → Except MergeError Container
  | .corrupt => .error .corruptArchive
  | .archive es => .ok (dedupKeepLast es)

/-- Re-zipping the extracted tree (lines 81–86 of `app.py`); `os.walk`
enumerates exactly the files of the tree. -/
def encodeZip (tree : Container) : ZipFileData := .archive tree

/-- Writing content `v` to the file at path `p` of the extracted tree. -/
def setEntry (es : Container) (p : String) (v : Str) : Container :=
  es.map fun e => if e.1 = p then (p, v) else e

/-- Lines 68–70 of `app.py`: locate the last `<w:sectPr`; if the content
from there, after `strip()`, ends with `</w:sectPr>`, keep only the
`rstrip`ped text before it; otherwise keep the body unchanged. -/
def stripTrailingSectPr (body : Str) : Str :=
  match rfindSub body sectPrOpen with
  | none => body
  | some ls =>
    if sectPrClose.isSuffixOf (pyStrip (body.drop ls)) then pyRstrip (body.take ls)
    else body

/-- Lines 62–66 of `app.py`: `body_content = xml[body_start + 8 : body_end_pos]`
when both markers are found, else no body (the document is skipped). -/
def extractRawBody (xml : Str) : Option Str :=
  match findSub xml bodyOpenTag, rfindSub xml bodyCloseTag with
  | some bs, some be => some ((xml.take be).drop (bs + 8))
  | _, _ => none

/-- The fragment an additional document contributes: its raw body with a
detected trailing section-properties block stripped. -/
def extractFragment (xml : Str) : Option Str :=
  (extractRawBody xml).map stripTrailingSectPr

/-- The `merged_parts` contributed by the additional documents: one
`page_break` and one fragment per document whose body was found, in
order; a skipped document contributes nothing. -/
def fragmentParts : List (Option Str) → List Str
  | [] => []
  | none :: rest => fragmentParts rest
  | some b :: rest => pageBreak :: b :: fragmentParts rest

/-- Python `''.join(parts)`. -/
def concatParts : List Str → Str
  | [] => []
  | p :: rest => p ++ concatParts rest

/-- The merged primary XML text: `''.join([base_xml[:body_end]] +
[page_break, fragment]* + [base_xml[body_end:]])`. -/
def mergedXml (baseXml : Str) (be : Nat) (frags : List (Option Str)) : Str :=
  concatParts (baseXml.take be :: (fragmentParts frags ++ [baseXml.drop be]))

/-- One iteration of the loop over `file_paths[1:]`: unzip the document,
read its `word/document.xml`, extract its fragment (`none` when a body
marker is missing). -/
def processAdditional (z : ZipFileData) : Except MergeError (Option Str) :=
  match decodeZip z with
  | .error e => .error e
  | .ok tree =>
    match lookupKey docPath tree with
    | none => .error .missingPrimaryPart
    | some xml => .ok (extractFragment xml)

/-- The loop over `file_paths[1:]`, stopping at the first raised error. -/
def processAdditionals : List ZipFileData → Except MergeError (List (Option Str))
  | [] => .ok []
  | z :: rest =>
    match processAdditional z with
    | .error e => .error e
    | .ok f =>
      match processAdditionals rest with
      | .error e => .error e
      | .ok fs => .ok (f :: fs)

/-- Lines 38–86 of `app.py` for `base :: adds`: unzip the base, read its
primary part, locate `rfind('</w:body>')`, process the additional
documents, write the merged XML into the base tree and re-zip it. -/
def mergeBase (base : ZipFileData) (adds : List ZipFileData) : Except MergeError ZipFileData :=
  match decodeZip base with
  | .error e => .error e
  | .ok tree =>
    match lookupKey docPath tree with
    | none => .error .missingPrimaryPart
    | some baseXml =>
      match rfindSub baseXml bodyCloseTag with
      | none => .error .invalidDocumentStructure
      | some be =>
        match processAdditionals adds with
        | .error e => .error e
        | .ok frags => .ok (encodeZip (setEntry tree docPath (mergedXml baseXml be frags)))

/-- `merge_docx_files` of `app.py`: rejects fewer than 2 inputs, then
merges the first (base) document with the rest. -/
def merge_docx_files (files : List ZipFileData) : Except MergeError ZipFileData :=
  if files.length < 2 then .error .insufficientInputs
  else
    match files with
    | [] => .error .insufficientInputs
    | base :: adds => mergeBase base adds

/-! Concrete documents used to witness the theorems. -/

/-- A minimal valid document with body `<w:p>A</w:p>`. -/
def xmlA : Str := strOf "<w:document><w:body><w:p>A</w:p></w:body></w:document>"

/-- A minimal valid document with body `<w:p>B</w:p>`. -/
def xmlB : Str := strOf "<w:document><w:body><w:p>B</w:p></w:body></w:document>"

/-- A document whose body ends with a section-properties block. -/
def xmlSect : Str :=
  strOf "<w:document><w:body><w:p>T</w:p> <w:sectPr><w:x/></w:sectPr> </w:body></w:document>"

/-- A document whose body ends with a self-closing `<w:sectPr/>`. -/
def xmlSelf : Str :=
  strOf "<w:document><w:body><w:p>x</w:p><w:sectPr/></w:body></w:document>"

/-- A document whose opening body tag carries an attribute, so the literal
`<w:body>` never occurs in it. -/
def xmlAttr : Str :=
  strOf "<w:document><w:body style=\"z\"><w:p>C</w:p></w:body></w:document>"

/-- A document with no closing body marker at all. -/
def xmlNoClose : Str := strOf "<w:document><w:body><w:p>A</w:p></w:document>"

/-- A single-part container holding `x` as its primary XML part. -/
def zipOf (x : Str) : ZipFileData := .archive [(docPath, x)]

/-- The merged XML of `zipOf xmlA` with `zipOf xmlB`. -/
def mergedAB : Str :=
  strOf "<w:document><w:body><w:p>A</w:p><w:p><w:r><w:br w:type=\"page\"/></w:r></w:p><w:p>B</w:p></w:body></w:document>"

/-- The merged XML of `zipOf xmlA` with `zipOf xmlSelf`. -/
def mergedSelf : Str :=
  strOf "<w:document><w:body><w:p>A</w:p><w:p><w:r><w:br w:type=\"page\"/></w:r></w:p><w:p>x</w:p><w:sectPr/></w:body></w:document>"

/-! Helper lemmas. -/

theorem merge_cons (base : ZipFileData) (adds : List ZipFileData) (hn : adds ≠ []) :
    merge_docx_files (base :: adds) = mergeBase base adds := by
  have h1 : 0 < adds.length := List.length_pos.mpr hn
  unfold merge_docx_files
  rw [if_neg (by simp only [List.length_cons]; omega)]

theorem append_cons_ne_nil {α : Type} (pre : List α) (z : α) (post : List α) :
    pre ++ z :: post ≠ [] := by
  cases pre <;> simp

theorem processAdditionals_append_ok {l₁ l₂ : List ZipFileData}
    {f₁ f₂ : List (Option Str)}
    (h1 : processAdditionals l₁ = .ok f₁) (h2 : processAdditionals l₂ = .ok f₂) :
    processAdditionals (l₁ ++ l₂) = .ok (f₁ ++ f₂) := by
  induction l₁ generalizing f₁ with
  | nil =>
    simp only [processAdditionals, Except.ok.injEq] at h1
    subst h1
    exact h2
  | cons z r ih =>
    rw [List.cons_append]
    simp only [processAdditionals] at h1 ⊢
    cases hz : processAdditional z with
    | error e => rw [hz] at h1; simp at h1
    | ok f =>
      rw [hz] at h1
      cases hr : processAdditionals r with
      | error e => rw [hr] at h1; simp at h1
      | ok fs =>
        rw [hr] at h1
        simp only [Except.ok.injEq] at h1
        subst h1
        rw [ih hr]
        rfl

theorem processAdditionals_append_err {l₁ l₂ : List ZipFileData}
    {f₁ : List (Option Str)} {e : MergeError}
    (h1 : processAdditionals l₁ = .ok f₁) (h2 : processAdditionals l₂ = .error e) :
    processAdditionals (l₁ ++ l₂) = .error e := by
  induction l₁ generalizing f₁ with
  | nil =>
    exact h2
  | cons z r ih =>
    rw [List.cons_append]
    simp only [processAdditionals] at h1 ⊢
    cases hz : processAdditional z with
    | error e' => rw [hz] at h1; simp at h1
    | ok f =>
      rw [hz] at h1
      cases hr : processAdditionals r with
      | error e' => rw [hr] at h1; simp at h1
      | ok fs =>
        rw [ih hr]

theorem concatParts_append (l₁ l₂ : List Str) :
    concatParts (l₁ ++ l₂) = concatParts l₁ ++ concatParts l₂ := by
  induction l₁ with
  | nil => rfl
  | cons p r ih => simp [concatParts, ih]

theorem fragmentParts_append (l₁ l₂ : List (Option Str)) :
    fragmentParts (l₁ ++ l₂) = fragmentParts l₁ ++ fragmentParts l₂ := by
  induction l₁ with
  | nil => rfl
  | cons o r ih => cases o <;> simp [fragmentParts, ih]

theorem mergedXml_eq (x : Str) (be : Nat) (frags : List (Option Str)) :
    mergedXml x be frags = x.take be ++ (concatParts (fragmentParts frags) ++ x.drop be) := by
  unfold mergedXml
  show x.take be ++ concatParts (fragmentParts frags ++ [x.drop be]) = _
  rw [concatParts_append]
  simp [concatParts]

theorem concat_fragmentParts_map_some (frags : List Str) :
    concatParts (fragmentParts (frags.map some)) =
      concatParts (frags.map fun f => pageBreak ++ f) := by
  induction frags with
  | nil => rfl
  | cons f r ih => simp [fragmentParts, concatParts, ih]

theorem count_fragmentParts (frags : List Str) (h : ∀ f ∈ frags, f ≠ pageBreak) :
    (fragmentParts (frags.map some)).count pageBreak = frags.length := by
  induction frags with
  | nil => rfl
  | cons f r ih =>
    have hf : f ≠ pageBreak := h f (List.mem_cons_self f r)
    have hr : ∀ g ∈ r, g ≠ pageBreak := fun g hg => h g (List.mem_cons_of_mem f hg)
    simp [fragmentParts, List.count_cons, hf, ih hr]

theorem lookupKey_setEntry_ne (es : Container) (p q : String) (v : Str) (h : p ≠ q) :
    lookupKey p (setEntry es q v) = lookupKey p es := by
  induction es with
  | nil => rfl
  | cons e r ih =>
    obtain ⟨a, b⟩ := e
    by_cases ha : a = q
    · subst ha
      have hs : setEntry ((a, b) :: r) a v = (a, v) :: setEntry r a v := by
        simp [setEntry]
      have hap : ¬(a = p) := fun e1 => h e1.symm
      rw [hs]
      show (if a = p then some v else lookupKey p (setEntry r a v)) =
        (if a = p then some b else lookupKey p r)
      rw [if_neg hap, if_neg hap, ih]
    · have hs : setEntry ((a, b) :: r) q v = (a, b) :: setEntry r q v := by
        simp [setEntry, ha]
      rw [hs]
      show (if a = p then some b else lookupKey p (setEntry r q v)) =
        (if a = p then some b else lookupKey p r)
      rw [ih]

theorem lookupKey_setEntry_self (es : Container) (q : String) (v w : Str)
    (h : lookupKey q es = some w) :
    lookupKey q (setEntry es q v) = some v := by
  induction es with
  | nil => simp [lookupKey] at h
  | cons e r ih =>
    obtain ⟨a, b⟩ := e
    by_cases ha : a = q
    · subst ha
      have hs : setEntry ((a, b) :: r) a v = (a, v) :: setEntry r a v := by
        simp [setEntry]
      rw [hs]
      show (if a = a then some v else lookupKey a (setEntry r a v)) = some v
      rw [if_pos rfl]
    · have hs : setEntry ((a, b) :: r) q v = (a, b) :: setEntry r q v := by
        simp [setEntry, ha]
      have h' : lookupKey q r = some w := by
        have hu : lookupKey q ((a, b) :: r) = lookupKey q r := by
          show (if a = q then some b else lookupKey q r) = lookupKey q r
          rw [if_neg ha]
        rw [hu] at h; exact h
      rw [hs]
      show (if a = q then some b else lookupKey q (setEntry r q v)) = some v
      rw [if_neg ha, ih h']

theorem mem_keys_dedupKeepLast {es : Container} {p : String}
    (h : p ∈ (dedupKeepLast es).map Prod.fst) : p ∈ es.map Prod.fst := by
  induction es with
  | nil => simp [dedupKeepLast] at h
  | cons e r ih =>
    by_cases he : e.1 ∈ r.map Prod.fst
    · have := ih (by simpa [dedupKeepLast, he] using h)
      simp [this]
    · rcases (by simpa [dedupKeepLast, he] using h :
          p = e.1 ∨ p ∈ (dedupKeepLast r).map Prod.fst) with h1 | h1
      · simp [h1]
      · simp [ih h1]

theorem dedupKeepLast_idem (es : Container) :
    dedupKeepLast (dedupKeepLast es) = dedupKeepLast es := by
  induction es with
  | nil => rfl
  | cons e r ih =>
    by_cases he : e.1 ∈ r.map Prod.fst
    · simp [dedupKeepLast, he, ih]
    · have h2 : e.1 ∉ (dedupKeepLast r).map Prod.fst :=
        fun hm => he (mem_keys_dedupKeepLast hm)
      simp [dedupKeepLast, he, h2, ih]

/-! Claim theorems. -/

/-- C7: for every input sequence of fewer than 2 documents, the merge
fails with `InsufficientInputs` and produces no output. -/
theorem C7_insufficient_inputs (files : List ZipFileData) (h : files.length < 2) :
    merge_docx_files files = .error .insufficientInputs := by
  unfold merge_docx_files
  rw [if_pos h]

theorem C7_insufficient_inputs_witness :
    merge_docx_files [] = .error .insufficientInputs :=
  C7_insufficient_inputs [] (by decide)

/-- C1: for a valid base and N ≥ 1 valid additional documents, the merged
primary XML text is the base text up to just before the (last) closing body
marker, then for each additional document in input order one page-break
marker followed by its body fragment, then the base text from the closing
marker to the end; the inserted parts hold exactly N page-break markers,
and documents are never reordered or deduplicated (merging `(A, A)`
keeps both copies of A's body, as the witness instantiates). -/
theorem C1_merge_concatenation
    (base : ZipFileData) (adds : List ZipFileData) (tree : Container)
    (baseXml : Str) (be : Nat) (frags : List Str)
    (hb : decodeZip base = .ok tree)
    (hx : lookupKey docPath tree = some baseXml)
    (he : rfindSub baseXml bodyCloseTag = some be)
    (hf : processAdditionals adds = .ok (frags.map some))
    (hn : adds ≠ [])
    (hpb : ∀ f ∈ frags, f ≠ pageBreak) :
    merge_docx_files (base :: adds) =
      .ok (.archive (setEntry tree docPath
        (baseXml.take be ++
          (concatParts (frags.map fun f => pageBreak ++ f) ++ baseXml.drop be))))
    ∧ (fragmentParts (frags.map some)).count pageBreak = frags.length := by
  constructor
  · rw [merge_cons base adds hn]
    simp only [mergeBase, hb, hx, he, hf, encodeZip]
    rw [mergedXml_eq, concat_fragmentParts_map_some]
  · exact count_fragmentParts frags hpb

/-- C2: for every additional document whose body markers are found, if the
last occurrence of `<w:sectPr` exists in the body fragment and the
fragment's content from that position, after trimming whitespace, ends
with `</w:sectPr>`, the contributed fragment is the text before that
position with trailing whitespace removed; otherwise the fragment is
contributed unchanged. -/
theorem C2_sectPr_strip
    (xml : Str) (bs be : Nat) (b : Str)
    (ho : findSub xml bodyOpenTag = some bs)
    (hc : rfindSub xml bodyCloseTag = some be)
    (hb : b = (xml.take be).drop (bs + 8)) :
    (∀ ls, rfindSub b sectPrOpen = some ls →
      (sectPrClose.isSuffixOf (pyStrip (b.drop ls)) = true →
        extractFragment xml = some (pyRstrip (b.take ls)))
      ∧ (sectPrClose.isSuffixOf (pyStrip (b.drop ls)) = false →
        extractFragment xml = some b))
    ∧ (rfindSub b sectPrOpen = none → extractFragment xml = some b) := by
  have hraw : extractRawBody xml = some b := by
    rw [hb]; simp [extractRawBody, ho, hc]
  refine ⟨fun ls hls => ⟨fun hsuf => ?_, fun hsuf => ?_⟩, fun hnone => ?_⟩
  · simp only [extractFragment, hraw, Option.map_some']
    simp only [stripTrailingSectPr, hls]
    rw [if_pos hsuf]
  · simp only [extractFragment, hraw, Option.map_some']
    simp only [stripTrailingSectPr, hls]
    rw [if_neg (by rw [hsuf]; exact Bool.false_ne_true)]
  · simp only [extractFragment, hraw, Option.map_some']
    simp only [stripTrailingSectPr, hnone]

theorem C2_sectPr_strip_witness :
    extractFragment xmlSect = some (pyRstrip (((xmlSect.take 61).drop (12 + 8)).take 13)) :=
  ((C2_sectPr_strip xmlSect 12 61 ((xmlSect.take 61).drop (12 + 8)) rfl rfl rfl).1
    13 rfl).1 rfl

/-- C3 counterexample: merging a base with no section-properties at all
with an additional document whose body ends in a self-closing
`<w:sectPr/>` puts that additional document's section-properties
immediately before the closing body marker of the merged output, so the
merged document's trailing section-properties do not come from the base. -/
theorem C3_counterexample :
    merge_docx_files [zipOf xmlA, zipOf xmlSelf] =
      .ok (.archive [(docPath, mergedSelf)])
    ∧ rfindSub xmlA sectPrOpen = none
    ∧ (strOf "<w:sectPr/></w:body></w:document>").isSuffixOf mergedSelf = true :=
  ⟨rfl, rfl, rfl⟩

/-- C3 (amended): each additional fragment whose trailing
section-properties block is detected (last `<w:sectPr` occurrence whose
remainder, after trimming whitespace, ends with `</w:sectPr>`) has that
block stripped, and the base's body text — including its own trailing
section-properties — is spliced verbatim around the fragments; but a
trailing sectPr that escapes detection (e.g. self-closing `<w:sectPr/>`)
survives and then immediately precedes the merged closing body marker. -/
theorem C3_base_governs
    (base add : ZipFileData) (tree zt : Container) (baseXml zxml b : Str)
    (be bs bz ls : Nat)
    (hb : decodeZip base = .ok tree)
    (hx : lookupKey docPath tree = some baseXml)
    (he : rfindSub baseXml bodyCloseTag = some be)
    (hz : decodeZip add = .ok zt)
    (hzx : lookupKey docPath zt = some zxml)
    (ho : findSub zxml bodyOpenTag = some bs)
    (hcz : rfindSub zxml bodyCloseTag = some bz)
    (hbdef : b = (zxml.take bz).drop (bs + 8))
    (hls : rfindSub b sectPrOpen = some ls)
    (hsuf : sectPrClose.isSuffixOf (pyStrip (b.drop ls)) = true) :
    merge_docx_files [base, add] =
      .ok (.archive (setEntry tree docPath
        (baseXml.take be ++ (pageBreak ++ (pyRstrip (b.take ls) ++ baseXml.drop be))))) := by
  have hraw : extractRawBody zxml = some b := by
    rw [hbdef]; simp [extractRawBody, ho, hcz]
  have hfrag : extractFragment zxml = some (pyRstrip (b.take ls)) := by
    simp only [extractFragment, hraw, Option.map_some']
    simp only [stripTrailingSectPr, hls]
    rw [if_pos hsuf]
  have hpa : processAdditionals [add] = .ok [some (pyRstrip (b.take ls))] := by
    simp [processAdditionals, processAdditional, hz, hzx, hfrag]
  rw [show ([base, add] : List ZipFileData) = base :: [add] from rfl,
    merge_cons base [add] (List.cons_ne_nil _ _)]
  simp only [mergeBase, hb, hx, he, hpa, encodeZip]
  simp [mergedXml, fragmentParts, concatParts]

theorem C3_base_governs_witness :
    merge_docx_files [zipOf xmlA, zipOf xmlSect] =
      .ok (.archive (setEntry [(docPath, xmlA)] docPath
        (xmlA.take 32 ++ (pageBreak ++
          (pyRstrip ((((xmlSect.take 61).drop (12 + 8))).take 13) ++ xmlA.drop 32))))) :=
  C3_base_governs (zipOf xmlA) (zipOf xmlSect) [(docPath, xmlA)] [(docPath, xmlSect)]
    xmlA xmlSect ((xmlSect.take 61).drop (12 + 8)) 32 12 61 13
    rfl rfl rfl rfl rfl rfl rfl rfl rfl rfl

/-- C5: a merge request (base plus at least one additional document) whose
base primary XML contains no closing body marker fails with
`InvalidDocumentStructure` and returns no merged output. -/
theorem C5_invalid_base
    (base : ZipFileData) (adds : List ZipFileData) (tree : Container) (baseXml : Str)
    (hn : adds ≠ [])
    (hb : decodeZip base = .ok tree)
    (hx : lookupKey docPath tree = some baseXml)
    (hc : rfindSub baseXml bodyCloseTag = none) :
    merge_docx_files (base :: adds) = .error .invalidDocumentStructure := by
  rw [merge_cons base adds hn]
  simp [mergeBase, hb, hx, hc]

theorem C5_invalid_base_witness :
    merge_docx_files [zipOf xmlNoClose, zipOf xmlB] = .error .invalidDocumentStructure :=
  C5_invalid_base (zipOf xmlNoClose) [zipOf xmlB] [(docPath, xmlNoClose)] xmlNoClose
    (List.cons_ne_nil _ _) rfl rfl rfl

/-- C9: decoding the archive produced by encoding a decoded container
yields the same path-to-bytes mapping as decoding the original archive,
on every non-primary path. -/
theorem C9_codec_idem
    (es tree tree2 : Container)
    (h1 : decodeZip (.archive es) = .ok tree)
    (h2 : decodeZip (encodeZip tree) = .ok tree2) :
    ∀ p, p ≠ docPath → lookupKey p tree2 = lookupKey p tree := by
  have e1 : tree = dedupKeepLast es := by
    simp only [decodeZip, Except.ok.injEq] at h1
    exact h1.symm
  have e2 : tree2 = dedupKeepLast tree := by
    simp only [decodeZip, encodeZip, Except.ok.injEq] at h2
    exact h2.symm
  intro p _
  rw [e2, e1, dedupKeepLast_idem]

theorem C9_codec_idem_witness :
    lookupKey "word/styles.xml"
        [(docPath, xmlA), ("word/styles.xml", strOf "<w:styles>2</w:styles>")] =
      lookupKey "word/styles.xml"
        [(docPath, xmlA), ("word/styles.xml", strOf "<w:styles>2</w:styles>")] :=
  C9_codec_idem
    [(docPath, xmlA), ("word/styles.xml", strOf "<w:styles>1</w:styles>"),
      ("word/styles.xml", strOf "<w:styles>2</w:styles>")]
    [(docPath, xmlA), ("word/styles.xml", strOf "<w:styles>2</w:styles>")]
    [(docPath, xmlA), ("word/styles.xml", strOf "<w:styles>2</w:styles>")]
    rfl rfl "word/styles.xml" (by decide)

/-- C4: on every successful merge, every non-primary entry of the decoded
base container appears in the output archive with identical content, and
the primary part is replaced only within its body region (the text before
and after the closing body marker is kept verbatim). -/
theorem C4_nonprimary_frame
    (base : ZipFileData) (adds : List ZipFileData) (out tree : Container)
    (hm : merge_docx_files (base :: adds) = .ok (.archive out))
    (hb : decodeZip base = .ok tree) :
    (∀ p, p ≠ docPath → lookupKey p out = lookupKey p tree)
    ∧ (∀ baseXml be, lookupKey docPath tree = some baseXml →
        rfindSub baseXml bodyCloseTag = some be →
        ∃ mid, lookupKey docPath out =
          some (baseXml.take be ++ (mid ++ baseXml.drop be))) := by
  have hn : adds ≠ [] := by
    intro he0
    subst he0
    unfold merge_docx_files at hm
    rw [if_pos (by simp)] at hm
    exact Except.noConfusion hm
  rw [merge_cons base adds hn] at hm
  cases hx : lookupKey docPath tree with
  | none => simp [mergeBase, hb, hx] at hm
  | some baseXml0 =>
    cases he0 : rfindSub baseXml0 bodyCloseTag with
    | none => simp [mergeBase, hb, hx, he0] at hm
    | some be0 =>
      cases hf : processAdditionals adds with
      | error e => simp [mergeBase, hb, hx, he0, hf] at hm
      | ok frags =>
        simp only [mergeBase, hb, hx, he0, hf, encodeZip, Except.ok.injEq,
          ZipFileData.archive.injEq] at hm
        constructor
        · intro p hp
          rw [← hm]
          exact lookupKey_setEntry_ne tree p docPath (mergedXml baseXml0 be0 frags) hp
        · intro baseXml be hbx hbe
          have hx1 : baseXml0 = baseXml := Option.some.inj hbx
          subst hx1
          rw [he0] at hbe
          have hbe1 : be0 = be := Option.some.inj hbe
          subst hbe1
          refine ⟨concatParts (fragmentParts frags), ?_⟩
          rw [← hm,
            lookupKey_setEntry_self tree docPath (mergedXml baseXml0 be0 frags) baseXml0 hx,
            mergedXml_eq]

theorem C4_nonprimary_frame_witness :
    (∀ p, p ≠ docPath →
      lookupKey p [(docPath, mergedAB)] = lookupKey p [(docPath, xmlA)])
    ∧ (∀ baseXml be, lookupKey docPath [(docPath, xmlA)] = some baseXml →
        rfindSub baseXml bodyCloseTag = some be →
        ∃ mid, lookupKey docPath [(docPath, mergedAB)] =
          some (baseXml.take be ++ (mid ++ baseXml.drop be))) :=
  C4_nonprimary_frame (zipOf xmlA) [zipOf xmlB] [(docPath, mergedAB)]
    [(docPath, xmlA)] rfl rfl

/-- C6: a non-base document whose primary XML lacks the opening or the
closing body marker does not make the merge fail: it contributes neither
a body fragment nor a page break, and the merge of the remaining
documents completes normally. -/
theorem C6_skip_markerless
    (base z : ZipFileData) (pre post : List ZipFileData)
    (tree zt : Container) (baseXml zxml : Str) (be : Nat)
    (fp fq : List (Option Str))
    (hb : decodeZip base = .ok tree)
    (hx : lookupKey docPath tree = some baseXml)
    (he : rfindSub baseXml bodyCloseTag = some be)
    (hz : decodeZip z = .ok zt)
    (hzx : lookupKey docPath zt = some zxml)
    (hmiss : findSub zxml bodyOpenTag = none ∨ rfindSub zxml bodyCloseTag = none)
    (hp : processAdditionals pre = .ok fp)
    (hq : processAdditionals post = .ok fq) :
    processAdditional z = .ok none
    ∧ merge_docx_files (base :: (pre ++ z :: post)) =
        .ok (encodeZip (setEntry tree docPath (mergedXml baseXml be (fp ++ fq)))) := by
  have hfrag : extractFragment zxml = none := by
    rcases hmiss with h | h
    · simp [extractFragment, extractRawBody, h]
    · cases hfo : findSub zxml bodyOpenTag <;>
        simp [extractFragment, extractRawBody, hfo, h]
  have hpz : processAdditional z = .ok none := by
    simp [processAdditional, hz, hzx, hfrag]
  refine ⟨hpz, ?_⟩
  have h1 : processAdditionals (z :: post) = .ok (none :: fq) := by
    simp only [processAdditionals, hpz, hq]
  have hpa : processAdditionals (pre ++ z :: post) = .ok (fp ++ none :: fq) :=
    processAdditionals_append_ok hp h1
  rw [merge_cons base (pre ++ z :: post) (append_cons_ne_nil pre z post)]
  simp only [mergeBase, hb, hx, he, hpa, encodeZip]
  have hskip : mergedXml baseXml be (fp ++ none :: fq) = mergedXml baseXml be (fp ++ fq) := by
    simp [mergedXml, fragmentParts_append, fragmentParts]
  rw [hskip]

theorem C6_skip_markerless_witness :
    processAdditional (zipOf xmlAttr) = .ok none
    ∧ merge_docx_files (zipOf xmlA :: ([] ++ zipOf xmlAttr :: [zipOf xmlB])) =
        .ok (encodeZip (setEntry [(docPath, xmlA)] docPath
          (mergedXml xmlA 32 ([] ++ [some (strOf "<w:p>B</w:p>")])))) :=
  C6_skip_markerless (zipOf xmlA) (zipOf xmlAttr) [] [zipOf xmlB]
    [(docPath, xmlA)] [(docPath, xmlAttr)] xmlA xmlAttr 32
    [] [some (strOf "<w:p>B</w:p>")]
    rfl rfl rfl rfl rfl (Or.inl rfl) rfl rfl

/-- C8 counterexample: a merge request consisting of a single corrupt
buffer fails with `InsufficientInputs`, not `CorruptArchive` — the claim
that every request containing a corrupt buffer fails with
`CorruptArchive` is false as stated. -/
theorem C8_counterexample :
    merge_docx_files [ZipFileData.corrupt] = .error .insufficientInputs
    ∧ MergeError.insufficientInputs ≠ MergeError.corruptArchive :=
  ⟨rfl, by decide⟩

/-- C8 (amended): when at least two documents are supplied and every input
processed before the corrupt buffer passes its checks — the corrupt buffer
is the base, or the base decodes, has a primary part with a closing body
marker and all earlier additional documents process successfully — the
merge fails with `CorruptArchive`; and every failing merge returns no
merged output. -/
theorem C8_corrupt_terminal :
    (∀ adds : List ZipFileData, adds ≠ [] →
      merge_docx_files (.corrupt :: adds) = .error .corruptArchive)
    ∧ (∀ (base : ZipFileData) (pre post : List ZipFileData) (tree : Container)
        (baseXml : Str) (be : Nat) (fp : List (Option Str)),
        decodeZip base = .ok tree →
        lookupKey docPath tree = some baseXml →
        rfindSub baseXml bodyCloseTag = some be →
        processAdditionals pre = .ok fp →
        merge_docx_files (base :: (pre ++ .corrupt :: post)) = .error .corruptArchive)
    ∧ (∀ (files : List ZipFileData) (e : MergeError) (o : ZipFileData),
        merge_docx_files files = .error e → merge_docx_files files ≠ .ok o) := by
  refine ⟨?_, ?_, ?_⟩
  · intro adds hn
    rw [merge_cons _ adds hn]
    simp [mergeBase, decodeZip]
  · intro base pre post tree baseXml be fp hb hx he hp
    have h1 : processAdditionals (ZipFileData.corrupt :: post) = .error .corruptArchive := by
      simp [processAdditionals, processAdditional, decodeZip]
    have hpa := processAdditionals_append_err hp h1
    rw [merge_cons base (pre ++ ZipFileData.corrupt :: post) (append_cons_ne_nil pre _ post)]
    simp [mergeBase, hb, hx, he, hpa]
  · intro files e o h1 h2
    rw [h1] at h2
    exact Except.noConfusion h2

theorem C8_corrupt_terminal_witness :
    merge_docx_files [ZipFileData.corrupt, ZipFileData.corrupt] = .error .corruptArchive
    ∧ merge_docx_files [zipOf xmlA, ZipFileData.corrupt] = .error .corruptArchive
    ∧ merge_docx_files [] ≠ .ok (ZipFileData.archive []) :=
  ⟨C8_corrupt_terminal.1 [ZipFileData.corrupt] (List.cons_ne_nil _ _),
   C8_corrupt_terminal.2.1 (zipOf xmlA) [] [] [(docPath, xmlA)] xmlA 32 [] rfl rfl rfl rfl,
   C8_corrupt_terminal.2.2 [] .insufficientInputs (ZipFileData.archive []) rfl⟩

/-- C10: the extracted body of a non-base document is exactly the text
strictly between the first occurrence of the literal 8-character
`<w:body>` (the code advances by the hard-coded constant 8) and the last
occurrence of `</w:body>`; a document in which the literal `<w:body>`
never occurs (e.g. an opening body tag with attributes) is silently
skipped, contributing no content and no page break; and for the base
document only the last `</w:body>` is located — its opening marker is
never checked, so the merge succeeds even when the base lacks it. -/
theorem C10_literal_markers :
    (∀ xml bs be, findSub xml bodyOpenTag = some bs →
      rfindSub xml bodyCloseTag = some be →
      extractRawBody xml = some ((xml.take be).drop (bs + 8)))
    ∧ bodyOpenTag.length = 8
    ∧ (∀ xml, findSub xml bodyOpenTag = none → extractFragment xml = none)
    ∧ (∀ l, fragmentParts (none :: l) = fragmentParts l)
    ∧ (∀ (base : ZipFileData) (adds : List ZipFileData) (tree : Container)
        (baseXml : Str) (be : Nat) (frags : List (Option Str)),
        decodeZip base = .ok tree →
        lookupKey docPath tree = some baseXml →
        findSub baseXml bodyOpenTag = none →
        rfindSub baseXml bodyCloseTag = some be →
        processAdditionals adds = .ok frags →
        adds ≠ [] →
        merge_docx_files (base :: adds) =
          .ok (encodeZip (setEntry tree docPath (mergedXml baseXml be frags)))) := by
  refine ⟨?_, rfl, ?_, fun l => rfl, ?_⟩
  · intro xml bs be ho hc
    simp [extractRawBody, ho, hc]
  · intro xml ho
    simp [extractFragment, extractRawBody, ho]
  · intro base adds tree baseXml be frags hb hx _ he hf hn
    rw [merge_cons base adds hn]
    simp only [mergeBase, hb, hx, he, hf]

theorem C10_literal_markers_witness :
    extractRawBody xmlA = some ((xmlA.take 32).drop (12 + 8))
    ∧ extractFragment xmlAttr = none
    ∧ merge_docx_files [zipOf xmlAttr, zipOf xmlB] =
        .ok (encodeZip (setEntry [(docPath, xmlAttr)] docPath
          (mergedXml xmlAttr 42 [some (strOf "<w:p>B</w:p>")]))) :=
  ⟨C10_literal_markers.1 xmlA 12 32 rfl rfl,
   C10_literal_markers.2.2.1 xmlAttr rfl,
   C10_literal_markers.2.2.2.2 (zipOf xmlAttr) [zipOf xmlB] [(docPath, xmlAttr)]
     xmlAttr 42 [some (strOf "<w:p>B</w:p>")] rfl rfl rfl rfl rfl (List.cons_ne_nil _ _)⟩

theorem C1_merge_concatenation_witness :
    merge_docx_files [zipOf xmlA, zipOf xmlA] =
      .ok (.archive (setEntry [(docPath, xmlA)] docPath
        (xmlA.take 32 ++
          (concatParts ([strOf "<w:p>A</w:p>"].map fun f => pageBreak ++ f) ++
            xmlA.drop 32))))
    ∧ (fragmentParts ([strOf "<w:p>A</w:p>"].map some)).count pageBreak =
        [strOf "<w:p>A</w:p>"].length :=
  C1_merge_concatenation (zipOf xmlA) [zipOf xmlA] [(docPath, xmlA)] xmlA 32
    [strOf "<w:p>A</w:p>"] rfl rfl rfl rfl (List.cons_ne_nil _ _) (by decide)

end DocxMerge
